import Mathlib

/-!
Verification of the shaft-designer calculation core.

This file gives a shallow embedding of the calculation pipeline found in
`src/calculations` (`__init__.py`, `reactions.py`, `sfd_bmd.py`) of the
shaft-designer repository, and proves or refutes the specified properties
of those functions.  Exact rational arithmetic (`ℚ`) stands in for Python
floats wherever the code is purely rational; real numbers (`ℝ`) are used
where the code calls transcendental functions (`tan`, `pi`, cube roots).
Fallible functions (Python `None` returns or raised `ValueError`s) are
embedded as `Option` results.
-/

namespace ShaftDesigner

/-- Embedding of `torque_from_power(P_kw, rpm)`: returns `0.0` when
`rpm <= 0`, otherwise `9550.0 * P_kw / rpm`. -/
def torque_from_power (P_kw rpm : ℚ) : ℚ :=
  if rpm ≤ 0 then 0 else 9550 * P_kw / rpm

/-- Embedding of `gear_forces(T_nm, gear_diameter_mm, pressure_angle_deg)`:
converts the diameter to metres (`d_m = gear_diameter_mm / 1000`), returns
`(0, 0)` when `d_m <= 0`, otherwise `Ft = 2*T/d_m` and
`Fr = Ft * tan(deg2rad(pressure_angle_deg))`. -/
noncomputable def gear_forces (T_nm gear_diameter_mm pressure_angle_deg : ℚ) :
    ℝ × ℝ :=
  let d_m : ℚ := gear_diameter_mm / 1000
  if d_m ≤ 0 then (0, 0)
  else
    let Ft : ℝ := 2 * (T_nm : ℝ) / (d_m : ℝ)
    let phi : ℝ := (pressure_angle_deg : ℝ) * Real.pi / 180
    (Ft, Ft * Real.tan phi)

/-- Embedding of `pulley_tensions(T_nm, pulley_diameter_mm, tension_ratio)`:
raises `ValueError` (here `none`) when the diameter is `<= 0` or the ratio
is `<= 1`; otherwise `radius_m = pulley_diameter_mm / 1000 / 2`,
`T2 = T_nm / (radius_m * (tension_ratio - 1))`, `T1 = tension_ratio * T2`,
returning `(T1, T2)`. -/
def pulley_tensions (T_nm pulley_diameter_mm tension_ratio : ℚ) :
    Option (ℚ × ℚ) :=
  if pulley_diameter_mm ≤ 0 then none
  else if tension_ratio ≤ 1 then none
  else
    let radius_m := pulley_diameter_mm / 1000 / 2
    let T2 := T_nm / (radius_m * (tension_ratio - 1))
    some (tension_ratio * T2, T2)

/-- Embedding of `point_load_moment(load_N, position_m)`. -/
def point_load_moment (load_N position_m : ℚ) : ℚ :=
  load_N * position_m

/-- Embedding of `combine_bending_moments(moments_list)`: the sum of the
list (`np.sum`). -/
def combine_bending_moments (moments_list : List ℚ) : ℚ :=
  moments_list.sum

/-- Embedding of `diameter_from_torsion(T_nm, sy_mpa, fos)`: `None` when
`sy_mpa <= 0 or fos <= 0`, otherwise
`(16*T / (pi * tau_allow)) ** (1/3)` with `tau_allow = sy_mpa*1e6 / fos`. -/
noncomputable def diameter_from_torsion (T_nm sy_mpa fos : ℚ) : Option ℝ :=
  if sy_mpa ≤ 0 ∨ fos ≤ 0 then none
  else
    let tau_allow_pa : ℝ := ((sy_mpa : ℝ) * 1000000) / (fos : ℝ)
    some ((16 * (T_nm : ℝ) / (Real.pi * tau_allow_pa)) ^ ((1 : ℝ) / 3))

/-- Embedding of `round_to_standard(d_m, shaft_sizes_df)`: `None` when the
input is `None` or `<= 0`; otherwise compares `d_mm = d_m*1000` against the
catalog entries (in mm), returning the first entry `>= d_mm` divided by
`1000`, and when no entry qualifies the maximum entry divided by `1000`
(`np.max` of an empty table raises, embedded as `none`). -/
def round_to_standard (d_m : Option ℚ) (sizes : List ℚ) : Option ℚ :=
  match d_m with
  | none => none
  | some d =>
    if d ≤ 0 then none
    else
      let d_mm := d * 1000
      match sizes.filter (fun s => d_mm ≤ s) with
      | s :: _ => some (s / 1000)
      | [] =>
        match sizes with
        | [] => none
        | s :: rest => some (rest.foldl max s / 1000)

/-- Shaft elements consumed by `calculate_reactions`: dictionaries of
`type == "load"` carrying `position` and `value`, and `type == "pulley"`
carrying `position` and `belt_force`. -/
inductive ShaftElement : Type
  | load (position value : ℚ)
  | pulley (position belt_force : ℚ)
deriving DecidableEq

/-- Transverse force contributed by an element (`value` for a load,
`belt_force` for a pulley). -/
def ShaftElement.force : ShaftElement → ℚ
  | .load _ value => value
  | .pulley _ belt_force => belt_force

/-- Position of an element along the shaft. -/
def ShaftElement.position : ShaftElement → ℚ
  | .load position _ => position
  | .pulley position _ => position

/-- Round-half-to-even on rationals: the integer nearest to `q`, ties going
to the even integer.  This is Python's `round` on an exactly representable
value. -/
def roundHalfEven (q : ℚ) : ℤ :=
  if q - ⌊q⌋ < 1 / 2 then ⌊q⌋
  else if 1 / 2 < q - ⌊q⌋ then ⌊q⌋ + 1
  else if Even ⌊q⌋ then ⌊q⌋ else ⌊q⌋ + 1

/-- Python's `round(x, 2)`: round to two decimal places, ties to even. -/
def round2 (q : ℚ) : ℚ :=
  (roundHalfEven (q * 100) : ℚ) / 100

/-- Embedding of `calculate_reactions(shaft_input, supports)` from
`reactions.py`: accumulates `total_vertical = Σ F` and
`total_moment_B = Σ F*(B - x)` over the elements, sets
`RA = total_moment_B / (B - A)` and `RB = total_vertical - RA`, and returns
`(round(RA, 2), round(RB, 2))`. -/
def calculate_reactions (elements : List ShaftElement) (A B : ℚ) : ℚ × ℚ :=
  let L := B - A
  let total_vertical := (elements.map ShaftElement.force).sum
  let total_moment_B :=
    (elements.map (fun el => el.force * (B - el.position))).sum
  let RA := total_moment_B / L
  let RB := total_vertical - RA
  (round2 RA, round2 RB)

/-- Point-load dictionaries consumed by `plot_SFD_BMD`: fields `pos` and
`magnitude`. -/
structure PointLoad : Type where
  pos : ℚ
  magnitude : ℚ
deriving DecidableEq

/-- Pulley dictionaries consumed by `plot_SFD_BMD`: fields `pos` and
`belt_force`. -/
structure PulleyLoad : Type where
  pos : ℚ
  belt_force : ℚ
deriving DecidableEq

/-- Inner accumulation of the shear loop in `plot_SFD_BMD`: starting from
`init`, each qualifying entry (`pos <= xi`) adds its force. -/
def accumShear (xi : ℚ) (init : ℚ) (entries : List (ℚ × ℚ)) : ℚ :=
  entries.foldl (fun s l => if l.1 ≤ xi then s + l.2 else s) init

/-- Inner accumulation of the moment loop in `plot_SFD_BMD`: starting from
`init`, each qualifying entry (`pos <= xi`) adds `force * (xi - pos)`. -/
def accumMoment (xi : ℚ) (init : ℚ) (entries : List (ℚ × ℚ)) : ℚ :=
  entries.foldl (fun s l => if l.1 ≤ xi then s + l.2 * (xi - l.1) else s) init

/-- Shear sample of `plot_SFD_BMD` at position `xi`: `shear = RA`, then the
point-load loop, then the pulley loop. -/
def shearSample (RA : ℚ) (point_loads : List PointLoad)
    (pulleys : List PulleyLoad) (xi : ℚ) : ℚ :=
  accumShear xi (accumShear xi RA (point_loads.map fun l => (l.pos, l.magnitude)))
    (pulleys.map fun p => (p.pos, p.belt_force))

/-- Moment sample of `plot_SFD_BMD` at position `xi`: `moment = RA * xi`,
then the point-load loop, then the pulley loop. -/
def momentSample (RA : ℚ) (point_loads : List PointLoad)
    (pulleys : List PulleyLoad) (xi : ℚ) : ℚ :=
  accumMoment xi (accumMoment xi (RA * xi) (point_loads.map fun l => (l.pos, l.magnitude)))
    (pulleys.map fun p => (p.pos, p.belt_force))

/-- Embedding of `plot_SFD_BMD(shaft, RA, RB)` from `sfd_bmd.py` (the
numerical content, with the plotting stripped): the span `L = B - A` is
discretized as `x = np.arange(0, L+1, 1)`, i.e. `0, 1, ..., L`, and the
arrays `V` and `M` are filled with the shear and moment samples. -/
def plot_SFD_BMD (L : ℕ) (RA : ℚ) (point_loads : List PointLoad)
    (pulleys : List PulleyLoad) : List ℚ × List ℚ :=
  let xs : List ℚ := (List.range (L + 1)).map (fun i : ℕ => (i : ℚ))
  (xs.map (shearSample RA point_loads pulleys),
   xs.map (momentSample RA point_loads pulleys))

/-- The combined finite set of transverse point loads seen by the diagram
generator: the `point_loads` entries together with the pulley `belt_force`
entries, each as a `(position, force)` pair. -/
def allLoads (point_loads : List PointLoad) (pulleys : List PulleyLoad) :
    List (ℚ × ℚ) :=
  point_loads.map (fun l => (l.pos, l.magnitude)) ++
    pulleys.map (fun p => (p.pos, p.belt_force))

/-! Theorems. -/

/-- One step of the shear accumulation loop. -/
theorem accumShear_cons (xi init : ℚ) (e : ℚ × ℚ) (es : List (ℚ × ℚ)) :
    accumShear xi init (e :: es) =
      accumShear xi (if e.1 ≤ xi then init + e.2 else init) es := by
  by_cases h : e.1 ≤ xi <;> simp [accumShear, h]

/-- The shear accumulation loop adds the sum of the qualifying forces. -/
theorem accumShear_eq (xi : ℚ) (entries : List (ℚ × ℚ)) :
    ∀ init, accumShear xi init entries =
      init + ((entries.filter (fun l => l.1 ≤ xi)).map Prod.snd).sum := by
  induction entries with
  | nil => intro init; simp [accumShear]
  | cons e es ih =>
    intro init
    rw [accumShear_cons, ih]
    by_cases h : e.1 ≤ xi
    · simp [List.filter_cons, h]
      ring
    · simp [List.filter_cons, h]

/-- One step of the moment accumulation loop. -/
theorem accumMoment_cons (xi init : ℚ) (e : ℚ × ℚ) (es : List (ℚ × ℚ)) :
    accumMoment xi init (e :: es) =
      accumMoment xi (if e.1 ≤ xi then init + e.2 * (xi - e.1) else init) es := by
  by_cases h : e.1 ≤ xi <;> simp [accumMoment, h]

/-- The moment accumulation loop adds the sum of the qualifying lever-arm
contributions. -/
theorem accumMoment_eq (xi : ℚ) (entries : List (ℚ × ℚ)) :
    ∀ init, accumMoment xi init entries =
      init + ((entries.filter (fun l => l.1 ≤ xi)).map
        (fun l => l.2 * (xi - l.1))).sum := by
  induction entries with
  | nil => intro init; simp [accumMoment]
  | cons e es ih =>
    intro init
    rw [accumMoment_cons, ih]
    by_cases h : e.1 ≤ xi
    · simp [List.filter_cons, h]
      ring
    · simp [List.filter_cons, h]

/-- A shear sample is the reaction plus the sum of the forces of all loads
(point loads and pulley belt forces) at positions `≤ xi`. -/
theorem shearSample_eq (RA : ℚ) (ls : List PointLoad) (ps : List PulleyLoad)
    (xi : ℚ) :
    shearSample RA ls ps xi =
      RA + (((allLoads ls ps).filter (fun l => l.1 ≤ xi)).map Prod.snd).sum := by
  rw [shearSample, accumShear_eq, accumShear_eq, allLoads, List.filter_append,
    List.map_append, List.sum_append]
  ring

/-- A moment sample is `RA * xi` plus the sum of the lever-arm moments of
all loads at positions `≤ xi`. -/
theorem momentSample_eq (RA : ℚ) (ls : List PointLoad) (ps : List PulleyLoad)
    (xi : ℚ) :
    momentSample RA ls ps xi =
      RA * xi + (((allLoads ls ps).filter (fun l => l.1 ≤ xi)).map
        (fun l => l.2 * (xi - l.1))).sum := by
  rw [momentSample, accumMoment_eq, accumMoment_eq, allLoads, List.filter_append,
    List.map_append, List.sum_append]
  ring

/-- C4: the diagram generator samples `x = 0, 1, ..., L` (unit step, both
endpoints included); at each sample `V(x) = RA + Σ{force : pos ≤ x}` and
`M(x) = RA·x + Σ{force·(x − pos) : pos ≤ x}` over the combined loads
(point loads and pulley belt forces, inclusive at `pos = x`); the two
output sequences have equal length `L + 1`; and with zero loads `V(x) = RA`
and `M(x) = RA·x` at every sample. -/
theorem plot_SFD_BMD_spec (L : ℕ) (RA : ℚ) (ls : List PointLoad)
    (ps : List PulleyLoad) :
    (plot_SFD_BMD L RA ls ps).1.length = (plot_SFD_BMD L RA ls ps).2.length ∧
    (plot_SFD_BMD L RA ls ps).1.length = L + 1 ∧
    (plot_SFD_BMD L RA ls ps).1 =
      (List.range (L + 1)).map (fun i : ℕ => RA +
        (((allLoads ls ps).filter (fun l => l.1 ≤ (i : ℚ))).map Prod.snd).sum) ∧
    (plot_SFD_BMD L RA ls ps).2 =
      (List.range (L + 1)).map (fun i : ℕ => RA * (i : ℚ) +
        (((allLoads ls ps).filter (fun l => l.1 ≤ (i : ℚ))).map
          (fun l => l.2 * ((i : ℚ) - l.1))).sum) ∧
    (ls = [] → ps = [] →
      (plot_SFD_BMD L RA ls ps).1 = (List.range (L + 1)).map (fun _ : ℕ => RA) ∧
      (plot_SFD_BMD L RA ls ps).2 =
        (List.range (L + 1)).map (fun i : ℕ => RA * (i : ℚ))) := by
  have hV : (plot_SFD_BMD L RA ls ps).1 =
      (List.range (L + 1)).map (fun i : ℕ => RA +
        (((allLoads ls ps).filter (fun l => l.1 ≤ (i : ℚ))).map Prod.snd).sum) := by
    show ((List.range (L + 1)).map (fun i : ℕ => (i : ℚ))).map
        (shearSample RA ls ps) = _
    rw [List.map_map]
    exact List.map_congr_left fun i _ => shearSample_eq RA ls ps (i : ℚ)
  have hM : (plot_SFD_BMD L RA ls ps).2 =
      (List.range (L + 1)).map (fun i : ℕ => RA * (i : ℚ) +
        (((allLoads ls ps).filter (fun l => l.1 ≤ (i : ℚ))).map
          (fun l => l.2 * ((i : ℚ) - l.1))).sum) := by
    show ((List.range (L + 1)).map (fun i : ℕ => (i : ℚ))).map
        (momentSample RA ls ps) = _
    rw [List.map_map]
    exact List.map_congr_left fun i _ => momentSample_eq RA ls ps (i : ℚ)
  refine ⟨?_, ?_, hV, hM, ?_⟩
  · rw [hV, hM, List.length_map, List.length_map]
  · rw [hV, List.length_map, List.length_range]
  · rintro rfl rfl
    constructor
    · rw [hV]
      exact List.map_congr_left fun i _ => by simp [allLoads]
    · rw [hM]
      exact List.map_congr_left fun i _ => by simp [allLoads]

/-- Witness for C4 at `L = 2`, `RA = 5` with zero loads: both profiles are
the reaction-only lines `[5, 5, 5]` and `[0, 5, 10]`. -/
theorem plot_SFD_BMD_spec_witness :
    (plot_SFD_BMD 2 5 [] []).1 = [5, 5, 5] ∧
    (plot_SFD_BMD 2 5 [] []).2 = [0, 5, 10] := by
  obtain ⟨h1, h2⟩ := (plot_SFD_BMD_spec 2 5 [] []).2.2.2.2 rfl rfl
  rw [h1, h2]
  norm_num [List.range_succ]

/-- C5: for every power `P` and `rpm > 0`, `torque_from_power P rpm` equals
`9550 * P / rpm` (so it scales linearly in `P` and inversely in `rpm`), and
for every `P` it returns `0` (a value, not an error) whenever `rpm ≤ 0`. -/
theorem torque_from_power_spec (P rpm : ℚ) :
    (0 < rpm → torque_from_power P rpm = 9550 * P / rpm) ∧
    (rpm ≤ 0 → torque_from_power P rpm = 0) ∧
    (0 < rpm → ∀ a : ℚ,
      torque_from_power (a * P) rpm = a * torque_from_power P rpm) ∧
    (0 < rpm → ∀ c : ℚ, 0 < c →
      torque_from_power P (c * rpm) = torque_from_power P rpm / c) := by
  refine ⟨fun h => ?_, fun h => ?_, fun h a => ?_, fun h c hc => ?_⟩
  · rw [torque_from_power, if_neg (not_le.mpr h)]
  · rw [torque_from_power, if_pos h]
  · rw [torque_from_power, torque_from_power, if_neg (not_le.mpr h),
      if_neg (not_le.mpr h)]
    ring
  · rw [torque_from_power, torque_from_power, if_neg (not_le.mpr h),
      if_neg (not_le.mpr (mul_pos hc h)), div_div, mul_comm rpm c]

/-- Witness for C5 at `P = 15`, `rpm = 960` (the spec's end-to-end
scenario): the torque is `9550 * 15 / 960`. -/
theorem torque_from_power_spec_witness :
    (0 : ℚ) < 960 ∧ torque_from_power 15 960 = 9550 * 15 / 960 :=
  ⟨by norm_num, (torque_from_power_spec 15 960).1 (by norm_num)⟩

/-- C9: `combine_bending_moments` is the algebraic sum of its input list,
it is invariant under permutation of the list, and on `[100, -40, 25]` it
returns `85`. -/
theorem combine_bending_moments_spec :
    (∀ l : List ℚ, combine_bending_moments l = l.sum) ∧
    (∀ l₁ l₂ : List ℚ, l₁.Perm l₂ →
      combine_bending_moments l₁ = combine_bending_moments l₂) ∧
    combine_bending_moments [100, -40, 25] = 85 :=
  ⟨fun _ => rfl, fun _ _ h => h.sum_eq, by norm_num [combine_bending_moments]⟩

/-- Witness for C9: a concrete permutation of `[100, -40, 25]` has the same
combined moment, namely `85`. -/
theorem combine_bending_moments_spec_witness :
    combine_bending_moments [25, 100, -40] = combine_bending_moments [100, -40, 25] ∧
    combine_bending_moments [25, 100, -40] = 85 := by
  have h := combine_bending_moments_spec.2.1 [25, 100, -40] [100, -40, 25] (by decide)
  exact ⟨h, h.trans combine_bending_moments_spec.2.2⟩

/-- C3: `pulley_tensions T d r` fails (returns `none`, the embedded
`ValueError`) iff `d ≤ 0` or `r ≤ 1`; for `d > 0` and `r > 1` it returns
`(T1, T2)` with `T2 = T / (radius * (r - 1))` and `T1 = r * T2`, where
`radius = d / 1000 / 2` is half the pulley diameter (in metres). -/
theorem pulley_tensions_spec (T d r : ℚ) :
    (pulley_tensions T d r = none ↔ d ≤ 0 ∨ r ≤ 1) ∧
    (0 < d → 1 < r →
      pulley_tensions T d r =
        some (r * (T / (d / 1000 / 2 * (r - 1))),
              T / (d / 1000 / 2 * (r - 1)))) := by
  constructor
  · by_cases hd : d ≤ 0
    · simp [pulley_tensions, hd]
    · by_cases hr : r ≤ 1
      · simp [pulley_tensions, hd, hr]
      · simp [pulley_tensions, hd, hr]
  · intro hd hr
    rw [pulley_tensions, if_neg (not_le.mpr hd), if_neg (not_le.mpr hr)]

/-- Witness for C3 at the spec's example: torque `100 N·m`, diameter
`300 mm` (0.3 m), ratio `2`: radius `0.15 m`, `T2 = 2000/3 ≈ 666.67 N`,
`T1 = 4000/3 ≈ 1333.33 N`; and ratio `1` is rejected. -/
theorem pulley_tensions_spec_witness :
    (0 : ℚ) < 300 ∧ (1 : ℚ) < 2 ∧
    pulley_tensions 100 300 2 = some (4000 / 3, 2000 / 3) ∧
    pulley_tensions 100 300 1 = none := by
  refine ⟨by norm_num, by norm_num, ?_, ?_⟩
  · rw [(pulley_tensions_spec 100 300 2).2 (by norm_num) (by norm_num)]
    norm_num
  · exact (pulley_tensions_spec 100 300 1).1.mpr (Or.inr le_rfl)

/-- The running `max` fold (the embedding of `np.max`) lands in the list. -/
theorem foldl_max_mem (rest : List ℚ) : ∀ s : ℚ, rest.foldl max s ∈ s :: rest := by
  induction rest with
  | nil => intro s; simp
  | cons b bs ih =>
    intro s
    rcases List.mem_cons.mp (ih (max s b)) with h | h
    · rcases max_choice s b with hm | hm
      · rw [List.foldl_cons, h, hm]; exact List.mem_cons_self _ _
      · rw [List.foldl_cons, h, hm]
        exact List.mem_cons_of_mem _ (List.mem_cons_self _ _)
    · exact List.mem_cons_of_mem _ (List.mem_cons_of_mem _ (by simpa using h))

/-- The running `max` fold bounds the seed and every list element. -/
theorem le_foldl_max (rest : List ℚ) :
    ∀ s : ℚ, ∀ x ∈ s :: rest, x ≤ rest.foldl max s := by
  induction rest with
  | nil => intro s x hx; simp at hx; simp [hx]
  | cons b bs ih =>
    intro s x hx
    rw [List.foldl_cons]
    rcases List.mem_cons.mp hx with rfl | hx'
    · exact le_trans (le_max_left x b) (ih (max x b) _ (List.mem_cons_self _ _))
    · rcases List.mem_cons.mp hx' with rfl | hx''
      · exact le_trans (le_max_right s x) (ih (max s x) _ (List.mem_cons_self _ _))
      · exact ih (max s b) x (List.mem_cons_of_mem _ hx'')

/-- On an ascending list, the head of `filter (x ≤ ·)` is the least element
that is `≥ x`. -/
theorem filter_sorted_head_least {l : List ℚ}
    (hs : List.Sorted (fun a b => a ≤ b) l) {x y : ℚ} {ys : List ℚ}
    (h : l.filter (fun s => x ≤ s) = y :: ys) :
    y ∈ l ∧ x ≤ y ∧ ∀ z ∈ l, x ≤ z → y ≤ z := by
  induction l with
  | nil => simp at h
  | cons a as ih =>
    rw [List.sorted_cons] at hs
    obtain ⟨ha, has⟩ := hs
    by_cases hxa : x ≤ a
    · have h' : a :: as.filter (fun s => decide (x ≤ s)) = y :: ys := by
        simpa [List.filter_cons, hxa] using h
      obtain ⟨rfl, -⟩ := List.cons.injEq a _ y ys ▸ h'
      refine ⟨List.mem_cons_self _ _, hxa, fun z hz _ => ?_⟩
      rcases List.mem_cons.mp hz with rfl | hz'
      · exact le_rfl
      · exact ha z hz'
    · have h' : as.filter (fun s => x ≤ s) = y :: ys := by
        simpa [List.filter_cons, hxa] using h
      obtain ⟨hy, hxy, hmin⟩ := ih has h'
      refine ⟨List.mem_cons_of_mem _ hy, hxy, fun z hz hxz => ?_⟩
      rcases List.mem_cons.mp hz with rfl | hz'
      · exact absurd hxz hxa
      · exact hmin z hz' hxz

/-- Unfolding of `round_to_standard` on a present diameter. -/
theorem round_to_standard_some (d : ℚ) (sizes : List ℚ) :
    round_to_standard (some d) sizes =
      (if d ≤ 0 then none
       else
         match sizes.filter (fun s => d * 1000 ≤ s) with
         | s :: _ => some (s / 1000)
         | [] =>
           match sizes with
           | [] => none
           | s :: rest => some (rest.foldl max s / 1000)) := rfl

/-- C7: `round_to_standard` returns `none` ("not computable") when the
required diameter is missing or `≤ 0`; otherwise, over the ascending
standard-size table, it returns the smallest catalog entry `≥` the
requirement (divided by 1000) whenever some entry is large enough. -/
theorem round_to_standard_spec (d_m : Option ℚ) (sizes : List ℚ)
    (hs : List.Sorted (fun a b => a ≤ b) sizes) :
    (d_m = none → round_to_standard d_m sizes = none) ∧
    (∀ d, d_m = some d → d ≤ 0 → round_to_standard d_m sizes = none) ∧
    (∀ d, d_m = some d → 0 < d → ∀ s₀ ∈ sizes, d * 1000 ≤ s₀ →
      ∃ c, round_to_standard d_m sizes = some (c / 1000) ∧ c ∈ sizes ∧
        d * 1000 ≤ c ∧ ∀ z ∈ sizes, d * 1000 ≤ z → c ≤ z) := by
  refine ⟨fun h => by subst h; rfl,
    fun d hd hle => by subst hd; rw [round_to_standard_some, if_pos hle],
    fun d hd hpos s₀ hs₀ hles => ?_⟩
  subst hd
  cases hfil : sizes.filter (fun s => d * 1000 ≤ s) with
  | nil =>
    exfalso
    have hmem : s₀ ∈ sizes.filter (fun s => d * 1000 ≤ s) :=
      List.mem_filter.mpr ⟨hs₀, by simpa using hles⟩
    rw [hfil] at hmem
    simp at hmem
  | cons c cs =>
    obtain ⟨hc, hxc, hmin⟩ := filter_sorted_head_least hs hfil
    refine ⟨c, ?_, hc, hxc, hmin⟩
    rw [round_to_standard_some, if_neg (not_le.mpr hpos), hfil]

/-- Witness for C7 at the spec's example: required diameter `0.0216 m`
against the table `[10, 16, 20, 25, 30, 40]` (mm) resolves to `25` mm. -/
theorem round_to_standard_spec_witness :
    round_to_standard (some (216 / 10000)) [10, 16, 20, 25, 30, 40] =
      some (25 / 1000) := by
  obtain ⟨c, hc, hmem, hge, hmin⟩ :=
    (round_to_standard_spec (some (216 / 10000)) [10, 16, 20, 25, 30, 40]
      (by decide)).2.2 (216 / 10000) rfl (by norm_num) 25 (by decide)
      (by norm_num)
  have h25 := hmin 25 (by decide) (by norm_num)
  fin_cases hmem
  · norm_num at hge
  · norm_num at hge
  · norm_num at hge
  · exact hc
  · norm_num at h25
  · norm_num at h25

/-- C10: the unit contract of the resolver: a required diameter `d > 0`
in metres is compared as `d * 1000` against the catalog entries (in mm),
and the chosen entry is returned divided by 1000, so the returned value
times 1000 is the smallest entry `≥ d * 1000` when one exists, and the
table maximum when none qualifies. -/
theorem round_to_standard_unit_contract (d : ℚ) (sizes : List ℚ)
    (hd : 0 < d) (hne : sizes ≠ [])
    (hs : List.Sorted (fun a b => a ≤ b) sizes) :
    ∃ r, round_to_standard (some d) sizes = some r ∧ r * 1000 ∈ sizes ∧
      ((∃ s ∈ sizes, d * 1000 ≤ s) →
        d * 1000 ≤ r * 1000 ∧ ∀ z ∈ sizes, d * 1000 ≤ z → r * 1000 ≤ z) ∧
      ((∀ s ∈ sizes, s < d * 1000) → ∀ z ∈ sizes, z ≤ r * 1000) := by
  cases hfil : sizes.filter (fun s => d * 1000 ≤ s) with
  | cons c cs =>
    obtain ⟨hc, hxc, hmin⟩ := filter_sorted_head_least hs hfil
    refine ⟨c / 1000, ?_, ?_, fun _ => ⟨?_, ?_⟩, fun hall => ?_⟩
    · rw [round_to_standard_some, if_neg (not_le.mpr hd), hfil]
    · rwa [div_mul_cancel₀ c (by norm_num : (1000 : ℚ) ≠ 0)]
    · rwa [div_mul_cancel₀ c (by norm_num : (1000 : ℚ) ≠ 0)]
    · rw [div_mul_cancel₀ c (by norm_num : (1000 : ℚ) ≠ 0)]
      exact hmin
    · exact absurd hxc (not_le.mpr (hall c hc))
  | nil =>
    match sizes, hne with
    | s :: rest, _ =>
      refine ⟨rest.foldl max s / 1000, ?_, ?_, fun hex => ?_, fun _ => ?_⟩
      · rw [round_to_standard_some, if_neg (not_le.mpr hd), hfil]
      · rw [div_mul_cancel₀ _ (by norm_num : (1000 : ℚ) ≠ 0)]
        exact foldl_max_mem rest s
      · exfalso
        obtain ⟨s₀, hs₀, hles⟩ := hex
        have hmem : s₀ ∈ (s :: rest).filter (fun x => d * 1000 ≤ x) :=
          List.mem_filter.mpr ⟨hs₀, by simpa using hles⟩
        rw [hfil] at hmem
        simp at hmem
      · rw [div_mul_cancel₀ _ (by norm_num : (1000 : ℚ) ≠ 0)]
        exact le_foldl_max rest s

/-- Witness for C10 at the spec's undersized example: a required diameter
of `1 m` (1000 mm) against the table with maximum `40` mm yields
`40 / 1000` metres, i.e. `40` mm. -/
theorem round_to_standard_unit_contract_witness :
    round_to_standard (some 1) [10, 16, 20, 25, 30, 40] = some (40 / 1000) := by
  obtain ⟨r, hr, hmem, -, hmax⟩ :=
    round_to_standard_unit_contract 1 [10, 16, 20, 25, 30, 40] (by norm_num)
      (by decide) (by decide)
  have hall : ∀ s ∈ ([10, 16, 20, 25, 30, 40] : List ℚ), s < 1 * 1000 := by
    intro s hsm
    fin_cases hsm <;> norm_num
  have h40 := hmax hall 40 (by decide)
  simp only [List.mem_cons, List.not_mem_nil, or_false] at hmem
  rcases hmem with h | h | h | h | h | h
  · rw [h] at h40; norm_num at h40
  · rw [h] at h40; norm_num at h40
  · rw [h] at h40; norm_num at h40
  · rw [h] at h40; norm_num at h40
  · rw [h] at h40; norm_num at h40
  · rw [hr]
    congr 1
    linarith

/-- C2 counterexample: an undersized request (`1 m` required, catalog max
`40` mm) returns the bare value `some (40 / 1000)`, which is exactly the
value a normal, fully successful resolution of `0.04 m` returns — the code
carries no "best available, may be undersized" indication, so the caller
cannot distinguish the two. -/
theorem round_to_standard_undersized_cex :
    round_to_standard (some 1) [10, 16, 20, 25, 30, 40] = some (40 / 1000) ∧
    round_to_standard (some (40 / 1000)) [10, 16, 20, 25, 30, 40] =
      some (40 / 1000) := by
  constructor <;> norm_num [round_to_standard]

/-- C2 amended: when no catalog entry is large enough, `round_to_standard`
returns the catalog maximum (divided by 1000) as an ordinary plain success
value, with no undersized flag of any kind. -/
theorem round_to_standard_undersized (d : ℚ) (sizes : List ℚ) (hd : 0 < d)
    (hne : sizes ≠ []) (hall : ∀ s ∈ sizes, s < d * 1000) :
    ∃ m, m ∈ sizes ∧ (∀ s ∈ sizes, s ≤ m) ∧
      round_to_standard (some d) sizes = some (m / 1000) := by
  have hfil : sizes.filter (fun s => d * 1000 ≤ s) = [] := by
    rw [List.filter_eq_nil_iff]
    intro a ha
    simpa using not_le.mpr (hall a ha)
  match sizes, hne, hall with
  | s :: rest, _, hall =>
    refine ⟨rest.foldl max s, foldl_max_mem rest s, le_foldl_max rest s, ?_⟩
    rw [round_to_standard_some, if_neg (not_le.mpr hd), hfil]

/-- Witness for C2 (amended) at `d = 2 m` against the table `[16, 40]`:
the result is the plain value `some (40 / 1000)`. -/
theorem round_to_standard_undersized_witness :
    round_to_standard (some 2) [16, 40] = some (40 / 1000) := by
  obtain ⟨m, hmem, hmax, heq⟩ :=
    round_to_standard_undersized 2 [16, 40] (by norm_num) (by decide)
      (by intro s hsm; fin_cases hsm <;> norm_num)
  have h40 := hmax 40 (by decide)
  fin_cases hmem
  · norm_num at h40
  · exact heq

/-- Round-half-to-even lands within one half of its argument. -/
theorem roundHalfEven_abs_le (q : ℚ) : |(roundHalfEven q : ℚ) - q| ≤ 1 / 2 := by
  have h0 : (⌊q⌋ : ℚ) ≤ q := Int.floor_le q
  have h1 : q < ⌊q⌋ + 1 := Int.lt_floor_add_one q
  rw [roundHalfEven]
  split_ifs with hlt hgt heven
  · rw [abs_le]; constructor <;> linarith
  · rw [abs_le]; constructor <;> push_cast <;> linarith
  · have htie : q - ⌊q⌋ = 1 / 2 := le_antisymm (not_lt.mp hgt) (not_lt.mp hlt)
    rw [abs_le]; constructor <;> linarith
  · have htie : q - ⌊q⌋ = 1 / 2 := le_antisymm (not_lt.mp hgt) (not_lt.mp hlt)
    rw [abs_le]; constructor <;> push_cast <;> linarith

/-- Rounding to two decimals moves a value by at most `1/200`. -/
theorem round2_abs_le (q : ℚ) : |round2 q - q| ≤ 1 / 200 := by
  have h := roundHalfEven_abs_le (q * 100)
  rw [round2]
  have hsplit : (roundHalfEven (q * 100) : ℚ) / 100 - q =
      ((roundHalfEven (q * 100) : ℚ) - q * 100) / 100 := by ring
  rw [hsplit, abs_div, abs_of_pos (by norm_num : (0 : ℚ) < 100)]
  linarith

/-- C8 counterexample: for the span `[0, 2]` with a single point load of
`1/4` at position `1`, the raw reactions are `RA = RB = 1/8 = 0.125`, but
the function returns the rounded pair `(0.12, 0.12)`: the returned `RA` is
not `(Σ F·(B−x)) / (B−A)`, and the returned pair sums to `0.24 ≠ 0.25`,
violating the claimed exact equilibrium. -/
theorem calculate_reactions_cex :
    calculate_reactions [ShaftElement.load 1 (1 / 4)] 0 2 = (3 / 25, 3 / 25) ∧
    (3 / 25 : ℚ) ≠ (1 / 4 * (2 - 1)) / (2 - 0) ∧
    (3 / 25 : ℚ) + 3 / 25 ≠ 1 / 4 := by
  refine ⟨?_, by norm_num, by norm_num⟩
  have hfloor : (⌊(1 / 4 * (2 - 1) / (2 - 0) * 100 : ℚ)⌋ : ℤ) = 12 := by
    norm_num
  norm_num [calculate_reactions, round2, roundHalfEven, ShaftElement.force,
    ShaftElement.position, hfloor]
  rw [if_pos (by decide : Even (12 : ℤ))]
  norm_num

/-- C8 amended: `calculate_reactions` returns the two-decimal,
half-to-even roundings of `RA = (Σ F·(B−x)) / (B−A)` and `RB = ΣF − RA`;
the raw (pre-rounding) reactions satisfy static equilibrium exactly, and
the returned pair satisfies it to within `0.01`. -/
theorem calculate_reactions_spec (es : List ShaftElement) (A B : ℚ)
    (hAB : A < B) :
    calculate_reactions es A B =
      (round2 ((es.map (fun el => el.force * (B - el.position))).sum / (B - A)),
       round2 ((es.map ShaftElement.force).sum -
         (es.map (fun el => el.force * (B - el.position))).sum / (B - A))) ∧
    (es.map (fun el => el.force * (B - el.position))).sum / (B - A) +
      ((es.map ShaftElement.force).sum -
        (es.map (fun el => el.force * (B - el.position))).sum / (B - A)) =
      (es.map ShaftElement.force).sum ∧
    |(calculate_reactions es A B).1 + (calculate_reactions es A B).2 -
      (es.map ShaftElement.force).sum| ≤ 1 / 100 := by
  refine ⟨rfl, by ring, ?_⟩
  set F := (es.map ShaftElement.force).sum with hF
  set RA := (es.map (fun el => el.force * (B - el.position))).sum / (B - A)
    with hRA
  have h1 := round2_abs_le RA
  have h2 := round2_abs_le (F - RA)
  have hfst : (calculate_reactions es A B).1 = round2 RA := rfl
  have hsnd : (calculate_reactions es A B).2 = round2 (F - RA) := rfl
  have key : round2 RA + round2 (F - RA) - F =
      round2 RA - RA + (round2 (F - RA) - (F - RA)) := by ring
  rw [hfst, hsnd, key]
  exact le_trans (abs_add _ _) (by linarith)

/-- Witness for C8 (amended) on the span `[0, 2]` with one load of `1/4`
at position `1`: the returned reactions balance the total load to within
`0.01`. -/
theorem calculate_reactions_spec_witness :
    (0 : ℚ) < 2 ∧
    |(calculate_reactions [ShaftElement.load 1 (1 / 4)] 0 2).1 +
      (calculate_reactions [ShaftElement.load 1 (1 / 4)] 0 2).2 - 1 / 4| ≤
      1 / 100 := by
  have h := (calculate_reactions_spec [ShaftElement.load 1 (1 / 4)] 0 2
    (by norm_num)).2.2
  refine ⟨by norm_num, ?_⟩
  simpa [ShaftElement.force] using h

/-- Cube followed by the real power `1/3` is the identity on nonnegative
reals. -/
theorem rpow_third_of_cube {a : ℝ} (ha : 0 ≤ a) :
    (a ^ (3 : ℕ)) ^ ((1 : ℝ) / 3) = a := by
  rw [← Real.rpow_natCast a 3, ← Real.rpow_mul ha]
  norm_num

/-- Strict upper bound through the cube root. -/
theorem rpow_third_lt {x c : ℝ} (hx : 0 ≤ x) (hc : 0 < c)
    (h : x < c ^ (3 : ℕ)) : x ^ ((1 : ℝ) / 3) < c := by
  have := Real.rpow_lt_rpow hx h (by norm_num : (0 : ℝ) < 1 / 3)
  rwa [rpow_third_of_cube hc.le] at this

/-- Strict lower bound through the cube root. -/
theorem lt_rpow_third {x c : ℝ} (hc : 0 ≤ c) (h : c ^ (3 : ℕ) < x) :
    c < x ^ ((1 : ℝ) / 3) := by
  have := Real.rpow_lt_rpow (pow_nonneg hc 3) h (by norm_num : (0 : ℝ) < 1 / 3)
  rwa [rpow_third_of_cube hc] at this

/-- C1 counterexample: at torque `1 N·m`, pitch diameter `1000 mm` (1 m,
radius `0.5 m`) and pressure angle `0°`, the code returns `Ft = 2` (i.e.
`2·T/diameter`), whereas `2·T/radius` would be `4`. -/
theorem gear_forces_cex :
    gear_forces 1 1000 0 = (2, 0) ∧
    2 * (1 : ℝ) / ((1000 : ℝ) / 1000 / 2) = 4 ∧
    ((2 : ℝ) ≠ 4) := by
  refine ⟨?_, by norm_num, by norm_num⟩
  rw [gear_forces]
  rw [if_neg (by norm_num : ¬((1000 : ℚ) / 1000 ≤ 0))]
  push_cast
  norm_num [Real.tan_zero]

/-- C1 amended: `gear_forces` returns `(0, 0)` when the pitch diameter is
`≤ 0`; for a positive diameter it returns `(Ft, Fr)` with
`Ft = 2·T / diameter` (the diameter in metres) — equivalently `T / radius`,
not `2·T / radius` — and `Fr = Ft · tan(pressure_angle)`, so that
`Fr / Ft = tan(pressure_angle)` whenever the torque is nonzero. -/
theorem gear_forces_spec (T d angle : ℚ) :
    (d ≤ 0 → gear_forces T d angle = (0, 0)) ∧
    (0 < d →
      (gear_forces T d angle).1 = 2 * (T : ℝ) / ((d : ℝ) / 1000) ∧
      (gear_forces T d angle).1 = (T : ℝ) / ((d : ℝ) / 1000 / 2) ∧
      (gear_forces T d angle).2 =
        (gear_forces T d angle).1 *
          Real.tan ((angle : ℝ) * Real.pi / 180) ∧
      ((T : ℝ) ≠ 0 →
        (gear_forces T d angle).2 / (gear_forces T d angle).1 =
          Real.tan ((angle : ℝ) * Real.pi / 180))) := by
  constructor
  · intro hle
    rw [gear_forces,
      if_pos (div_nonpos_iff.mpr (Or.inr ⟨hle, by norm_num⟩))]
  · intro hpos
    have hne : ¬((d : ℚ) / 1000 ≤ 0) :=
      not_le.mpr (div_pos hpos (by norm_num))
    have hdR : ((d : ℝ) / 1000) ≠ 0 := by
      have : (0 : ℝ) < (d : ℝ) := by exact_mod_cast hpos
      positivity
    have h1 : (gear_forces T d angle).1 = 2 * (T : ℝ) / ((d : ℝ) / 1000) := by
      rw [gear_forces, if_neg hne]
      push_cast
      ring
    refine ⟨h1, ?_, ?_, ?_⟩
    · rw [h1]
      field_simp
      ring
    · rw [gear_forces, if_neg hne]
    · intro hT
      have hFt : (gear_forces T d angle).1 ≠ 0 := by
        rw [h1]
        exact div_ne_zero (by simpa using hT) hdR
      have h2 : (gear_forces T d angle).2 =
          (gear_forces T d angle).1 *
            Real.tan ((angle : ℝ) * Real.pi / 180) := by
        rw [gear_forces, if_neg hne]
      rw [h2, mul_comm, mul_div_assoc, div_self hFt, mul_one]

/-- Witness for C1 (amended) at torque `1`, diameter `1000 mm`, pressure
angle `0°`: `Ft = 2` and `Fr / Ft = tan 0 = 0`. -/
theorem gear_forces_spec_witness :
    (0 : ℚ) < 1000 ∧ (gear_forces 1 1000 0).1 = 2 ∧
    (gear_forces 1 1000 0).2 / (gear_forces 1 1000 0).1 = 0 := by
  obtain ⟨h1, -, -, hratio⟩ := (gear_forces_spec 1 1000 0).2 (by norm_num)
  refine ⟨by norm_num, ?_, ?_⟩
  · rw [h1]; norm_num
  · rw [hratio (by norm_num)]
    push_cast
    rw [zero_mul, zero_div, Real.tan_zero]

/-- C6 counterexample: the formula value at `(torque, Sy, fos) =
(200, 250, 2)` is strictly below `0.021 m`, more than `0.0014 m` away from
the claimed `≈ 0.0216 m`. -/
theorem diameter_from_torsion_cex :
    diameter_from_torsion 200 250 2 =
      some ((16 * (200 : ℝ) / (Real.pi * ((250 : ℝ) * 1000000 / 2))) ^
        ((1 : ℝ) / 3)) ∧
    (16 * (200 : ℝ) / (Real.pi * ((250 : ℝ) * 1000000 / 2))) ^
      ((1 : ℝ) / 3) < 21 / 1000 ∧
    216 / 10000 - (16 * (200 : ℝ) / (Real.pi * ((250 : ℝ) * 1000000 / 2))) ^
      ((1 : ℝ) / 3) > 14 / 10000 := by
  have hpi := Real.pi_gt_d6
  have hx0 : (0 : ℝ) ≤ 16 * 200 / (Real.pi * (250 * 1000000 / 2)) := by
    positivity
  have hupper : (16 * (200 : ℝ) / (Real.pi * ((250 : ℝ) * 1000000 / 2))) ^
      ((1 : ℝ) / 3) < 202 / 10000 := by
    apply rpow_third_lt hx0 (by norm_num)
    rw [div_lt_iff₀ (by positivity)]
    nlinarith
  have h21 : (16 * (200 : ℝ) / (Real.pi * ((250 : ℝ) * 1000000 / 2))) ^
      ((1 : ℝ) / 3) < 21 / 1000 := lt_trans hupper (by norm_num)
  refine ⟨?_, h21, by linarith⟩
  rw [diameter_from_torsion, if_neg (by norm_num)]
  push_cast
  rfl

/-- C6 amended: `diameter_from_torsion` returns `none` ("not computable")
iff `Sy ≤ 0` or `fos ≤ 0`; otherwise it returns
`(16·T / (π·τ_allow))^(1/3)` with `τ_allow = Sy·10⁶ / fos`; in particular
at `(200, 250, 2)` the allowable stress is `125·10⁶ Pa` and the diameter
lies strictly between `0.0200` and `0.0202` m (≈ `0.0201` m, not
`0.0216` m). -/
theorem diameter_from_torsion_spec (T sy fos : ℚ) :
    (diameter_from_torsion T sy fos = none ↔ sy ≤ 0 ∨ fos ≤ 0) ∧
    (0 < sy → 0 < fos →
      diameter_from_torsion T sy fos =
        some ((16 * (T : ℝ) / (Real.pi * ((sy : ℝ) * 1000000 / fos))) ^
          ((1 : ℝ) / 3))) ∧
    ((250 : ℝ) * 1000000 / 2 = 125000000) ∧
    (∀ dval : ℝ, diameter_from_torsion 200 250 2 = some dval →
      200 / 10000 < dval ∧ dval < 202 / 10000) := by
  refine ⟨?_, ?_, by norm_num, ?_⟩
  · constructor
    · intro h
      by_contra hcon
      push_neg at hcon
      rw [diameter_from_torsion, if_neg (by push_neg; exact hcon)] at h
      simp at h
    · intro h
      rw [diameter_from_torsion, if_pos h]
  · intro hsy hfos
    rw [diameter_from_torsion,
      if_neg (by push_neg; exact ⟨hsy, hfos⟩)]
  · intro dval hd
    have hform : diameter_from_torsion 200 250 2 =
        some ((16 * (200 : ℝ) / (Real.pi * ((250 : ℝ) * 1000000 / 2))) ^
          ((1 : ℝ) / 3)) := by
      rw [diameter_from_torsion, if_neg (by norm_num)]
      push_cast
      rfl
    rw [hform] at hd
    have hdval : dval =
        (16 * (200 : ℝ) / (Real.pi * ((250 : ℝ) * 1000000 / 2))) ^
          ((1 : ℝ) / 3) := (Option.some_inj.mp hd).symm
    have hpi := Real.pi_gt_d6
    have hpilt := Real.pi_lt_d2
    have hx0 : (0 : ℝ) ≤ 16 * 200 / (Real.pi * (250 * 1000000 / 2)) := by
      positivity
    constructor
    · rw [hdval]
      apply lt_rpow_third (by norm_num)
      rw [lt_div_iff₀ (by positivity)]
      nlinarith
    · rw [hdval]
      apply rpow_third_lt hx0 (by norm_num)
      rw [div_lt_iff₀ (by positivity)]
      nlinarith

/-- Witness for C6 (amended): at `(200, 250, 2)` the result is `some` of
the closed-form value, and that value lies in `(0.0200, 0.0202)`. -/
theorem diameter_from_torsion_spec_witness :
    (0 : ℚ) < 250 ∧ (0 : ℚ) < 2 ∧
    200 / 10000 <
      (16 * (200 : ℝ) / (Real.pi * ((250 : ℝ) * 1000000 / 2))) ^
        ((1 : ℝ) / 3) ∧
    (16 * (200 : ℝ) / (Real.pi * ((250 : ℝ) * 1000000 / 2))) ^
      ((1 : ℝ) / 3) < 202 / 10000 := by
  have hform := (diameter_from_torsion_spec 200 250 2).2.1 (by norm_num)
    (by norm_num)
  have hform2 : diameter_from_torsion 200 250 2 =
      some ((16 * (200 : ℝ) / (Real.pi * ((250 : ℝ) * 1000000 / 2))) ^
        ((1 : ℝ) / 3)) := by
    rw [hform]
    push_cast
    rfl
  have hbounds := (diameter_from_torsion_spec 200 250 2).2.2.2 _ hform2
  exact ⟨by norm_num, by norm_num, hbounds.1, hbounds.2⟩

end ShaftDesigner
